import Mathlib

/-!
The queue of mtq: a fixed-capacity multicast ring queue

A shallow embedding of `src/mtq.c` and theorems about it.

Modelling conventions.

* Machine integers are natural numbers; every place where the C code can wrap
  carries an explicit `% 2 ^ 32` (for `uint32_t`) or `% 2 ^ 64` (for `size_t`).
* The arrays `batches` and `batch_infos` have `k_mtqueue_max_batches_ = 8`
  elements and are functions out of `Fin 8`; `head` and `tail` are plain
  `size_t` values, so an access with an index of 8 or more is out of bounds and
  the operation has no defined result (`none`, or `WaitResult.undefined`).
* Operations are state passing: they take the queue and return the new queue
  together with the return value and whatever they write through their output
  pointers.
* The mutex and the condition variable are not part of the state.  The library
  calls `pthread_cond_broadcast` and `pthread_cond_wait` are taken to succeed; a
  call of `mtQueue_waitForBatch` that reaches `pthread_cond_wait` is reported as
  `WaitResult.blocked`.
* The lock discipline is stated over the events of one thread: the calls on the
  mutex and the condition variable and the stores that advance a cursor, in
  program order (`SyncEvent`), with one flag for whether the thread holds the
  mutex (`heldAfter`, `lockDiscipline`).
* Output on `stdout` is not modelled.  The diagnostic that `mtQueue_startBatch`
  prints on `stderr` is part of its result.
-/

namespace Mtq

/-- Number of slots of the ring: `k_mtqueue_max_batches_`. -/
abbrev k_mtqueue_max_batches_ : Nat := 8

/-- Size of the `subs` array: `k_mtqueue_max_subscribers_`. -/
abbrev k_mtqueue_max_subscribers_ : Nat := 4

/-- One slot payload: `struct MtQueueBatch_s`. -/
structure MtQueueBatch where
  data : Fin 128 → Nat
  size : Nat

/-- The queue: `struct MtQueue_s` without its mutex and condition variable.
`refmask i` is `batch_infos[i].refmask`, `subs i` is `subs[i].is_connected`. -/
structure MtQueue where
  batches : Fin k_mtqueue_max_batches_ → MtQueueBatch
  refmask : Fin k_mtqueue_max_batches_ → Nat
  subs : Fin k_mtqueue_max_subscribers_ → Bool
  num_subs : Nat
  head : Nat
  tail : Nat
  is_paused : Bool

/-- The loop of `build_ref_mask`,
`for (uint32_t i = 1; i <= bound; i <<= 1) refmask |= i;`,
where `bound` is the value of `1u << num_subs`.  One unit of fuel pays for one
evaluation of the loop condition; `none` means the fuel ran out before the loop
condition became false. -/
def build_ref_mask_loop (bound : Nat) : Nat → Nat → Nat → Option Nat
  | 0, _, _ => none
  | fuel + 1, i, refmask =>
    if i ≤ bound then
      build_ref_mask_loop bound fuel ((i <<< 1) % 2 ^ 32) ((refmask ||| i) % 2 ^ 32)
    else
      some refmask

/-- The function `build_ref_mask (uint32_t num_subs)`.  The shift `1u << num_subs`
is undefined for `num_subs >= 32` (`none`); otherwise the result is that of the
loop, started with `i = 1` and `refmask = 0`. -/
def build_ref_mask (fuel : Nat) (num_subs : Nat) : Option Nat :=
  if num_subs < 32 then
    build_ref_mask_loop ((1 <<< num_subs) % 2 ^ 32) fuel 1 0
  else
    none

/-- The function `mtQueue_init`: it stores `tail`, `is_paused`, zeroes the
payloads and the pending sets, and touches nothing else of the prior content
`q` of the queue memory. -/
def mtQueue_init (q : MtQueue) : MtQueue :=
  { q with
    tail := 0
    is_paused := false
    batches := fun _ => { data := fun _ => 0, size := 0 }
    refmask := fun _ => 0 }

/-- The function `mtQueue_startBatch`.  The result is the new queue, the return
value and the diagnostic written to `stderr` if there is one: the pair
`(q->tail, batch_info->refmask)` that the `internal error` message prints. -/
def mtQueue_startBatch (fuel : Nat) (q : MtQueue) :
    Option (MtQueue × Int × Option (Nat × Nat)) :=
  if h : q.tail < k_mtqueue_max_batches_ then
    let old := q.refmask ⟨q.tail, h⟩
    let diag : Option (Nat × Nat) := if old > 0 then some (q.tail, old) else none
    match build_ref_mask fuel q.num_subs with
    | some m => some ({ q with refmask := Function.update q.refmask ⟨q.tail, h⟩ m }, 0, diag)
    | none => none
  else
    none

/-- The function `mtQueue_submitBatch`.  The result is the new queue and the
return value.  The `printf` reads `batch_infos[old_tail]`, so `tail` has to be a
valid index. -/
def mtQueue_submitBatch (q : MtQueue) : Option (MtQueue × Int) :=
  if q.tail < k_mtqueue_max_batches_ then
    some ({ q with tail := (q.tail + 1) % k_mtqueue_max_batches_ }, 0)
  else
    none

/-- The function `mtQueue_subscribe`.  The result is the new queue, the return
value and the value stored in `*sub_id`.  `nsubs` is the incremented 32-bit
counter; the shift `1 << (nsubs - 1)` is a shift of the `int` 1 by a `uint32_t`
amount, defined only for amounts up to 30. -/
def mtQueue_subscribe (q : MtQueue) : Option (MtQueue × Int × Nat) :=
  let nsubs := (q.num_subs + 1) % 2 ^ 32
  let amount := (nsubs + (2 ^ 32 - 1)) % 2 ^ 32
  if amount < 31 then
    some ({ q with num_subs := nsubs }, 0, 1 <<< amount)
  else
    none

/-- What a call of `mtQueue_waitForBatch` does. -/
inductive WaitResult where
  /-- The call returned: the new queue, the return value and the slot index
  that `*pbatch` points to (`none` when `*pbatch` was not written). -/
  | returned (q : MtQueue) (rc : Int) (pbatch : Option Nat)
  /-- The call is inside `pthread_cond_wait`, because `head == tail`. -/
  | blocked
  /-- The call indexes the arrays out of bounds. -/
  | undefined

/-- The operand `~sub_id` of the `atomic_fetch_and`, converted to the 32-bit
type of the pending set: the complement is taken in `size_t`. -/
def not_sub_id (sub_id : Nat) : Nat :=
  (2 ^ 64 - 1 - sub_id % 2 ^ 64) % 2 ^ 32

/-- The function `mtQueue_waitForBatch`. -/
def mtQueue_waitForBatch (q : MtQueue) (sub_id : Nat) : WaitResult :=
  if q.is_paused then
    .returned q 1 none
  else if q.head = q.tail then
    .blocked
  else if h : q.head < k_mtqueue_max_batches_ then
    let old := q.refmask ⟨q.head, h⟩
    let q1 := { q with refmask := Function.update q.refmask ⟨q.head, h⟩ (old &&& not_sub_id sub_id) }
    if old = sub_id then
      .returned { q1 with head := (q1.head + 1) % k_mtqueue_max_batches_ } 0 (some q.head)
    else
      .returned q1 0 (some q.head)
  else
    .undefined

/-- The result of a call that returned, `none` for a call that did not. -/
def WaitResult.toOption : WaitResult → Option (MtQueue × Int × Option Nat)
  | .returned q rc pbatch => some (q, rc, pbatch)
  | .blocked => none
  | .undefined => none

/-- The pending set of slot `i`, `none` when `i` is not a slot index. -/
def MtQueue.refmaskAt (q : MtQueue) (i : Nat) : Option Nat :=
  if h : i < k_mtqueue_max_batches_ then some (q.refmask ⟨i, h⟩) else none

/-- An empty queue: no subscriber, both cursors at slot 0, every pending set
empty, the payloads zeroed, not paused. -/
def emptyQueue : MtQueue where
  batches := fun _ => { data := fun _ => 0, size := 0 }
  refmask := fun _ => 0
  subs := fun _ => false
  num_subs := 0
  head := 0
  tail := 0
  is_paused := false

/-- The scenario of two subscribers and two batches: on the empty queue, S0 and
S1 subscribe, the producer starts and submits a batch twice (slot 0, then slot
1), and S0 alone calls `mtQueue_waitForBatch` twice.  The result is the return
value and the slot handed out by each of the two calls. -/
def scenarioTwoBatches (fuel : Nat) : Option ((Int × Option Nat) × (Int × Option Nat)) := do
  let (q1, _, s0) ← mtQueue_subscribe emptyQueue
  let (q2, _, _) ← mtQueue_subscribe q1
  let (q3, _, _) ← mtQueue_startBatch fuel q2
  let (q4, _) ← mtQueue_submitBatch q3
  let (q5, _, _) ← mtQueue_startBatch fuel q4
  let (q6, _) ← mtQueue_submitBatch q5
  let (q7, rc1, slot1) ← (mtQueue_waitForBatch q6 s0).toOption
  let (_, rc2, slot2) ← (mtQueue_waitForBatch q7 s0).toOption
  pure ((rc1, slot1), (rc2, slot2))

/-- Calls `mtQueue_subscribe` `n` times in a row; the result is the final queue
and the identities handed out, in the order of the calls. -/
def subscribeMany : Nat → MtQueue → Option (MtQueue × List Nat)
  | 0, q => some (q, [])
  | n + 1, q =>
    (mtQueue_subscribe q).bind fun r =>
      (subscribeMany n r.1).bind fun rest => some (rest.1, r.2.2 :: rest.2)

/-- Each subscriber of the list calls `mtQueue_waitForBatch` once, in the order
of the list; the result is the final queue, `none` if a call did not return. -/
def waitEach : List Nat → MtQueue → Option MtQueue
  | [], q => some q
  | s :: rest, q =>
    match mtQueue_waitForBatch q s with
    | .returned q1 _ _ => waitEach rest q1
    | .blocked => none
    | .undefined => none

/-- The scenario of `n` subscribers and one batch: on the empty queue, `n`
calls of `mtQueue_subscribe`, one `mtQueue_startBatch`, one
`mtQueue_submitBatch`, and then the subscribers at the positions `order` (of
the list of identities handed out) each call `mtQueue_waitForBatch` once.  The
result is `head` and the pending set of slot 0 at the end. -/
def scenarioOneBatch (fuel n : Nat) (order : List Nat) : Option (Nat × Option Nat) := do
  let (q1, ids) ← subscribeMany n emptyQueue
  let (q2, _, _) ← mtQueue_startBatch fuel q1
  let (q3, _) ← mtQueue_submitBatch q2
  let q4 ← waitEach (order.filterMap fun j => ids.get? j) q3
  pure (q4.head, q4.refmaskAt 0)

/-- A full ring of two subscribers: eight batches are outstanding (`tail` has
wrapped around to `head`), S0 has cleared its bit in every slot, S1 has
consumed nothing. -/
def fullQueue : MtQueue :=
  { emptyQueue with num_subs := 2, refmask := fun _ => 6 }

/-- A queue with `k_mtqueue_max_subscribers_` registered subscribers. -/
def fourSubsQueue : MtQueue :=
  { emptyQueue with num_subs := 4 }

/-- Whether the call is inside `pthread_cond_wait`. -/
def WaitResult.isBlocked : WaitResult → Bool
  | .blocked => true
  | _ => false

/-- Whether the call indexes the arrays out of bounds. -/
def WaitResult.isUndefined : WaitResult → Bool
  | .undefined => true
  | _ => false

/-- The slot that a call handed out through `*pbatch`, `none` when the call did
not return or did not write `*pbatch`. -/
def WaitResult.slot : WaitResult → Option Nat
  | .returned _ _ pbatch => pbatch
  | _ => none

/-- The producer of `main`: `n` times `mtQueue_startBatch` followed by
`mtQueue_submitBatch`; the result is the final queue. -/
def produceMany (fuel : Nat) : Nat → MtQueue → Option MtQueue
  | 0, q => some q
  | n + 1, q =>
    (mtQueue_startBatch fuel q).bind fun r =>
      (mtQueue_submitBatch r.1).bind fun r2 => produceMany fuel n r2.1

/-- The scenario of a ring filled without consumption: on the empty queue, `n`
calls of `mtQueue_subscribe`, then `pairs` times `mtQueue_startBatch` and
`mtQueue_submitBatch`, then one call of `mtQueue_waitForBatch` by `sub_id`.  The
result is `head` and `tail` before that call, whether the call blocks, and the
slot it hands out. -/
def scenarioFilledRing (fuel n pairs sub_id : Nat) : Option (Nat × Nat × Bool × Option Nat) :=
  (subscribeMany n emptyQueue).bind fun r =>
    (produceMany fuel pairs r.1).map fun q =>
      (q.head, q.tail, (mtQueue_waitForBatch q sub_id).isBlocked,
        (mtQueue_waitForBatch q sub_id).slot)

/-- One call of the queue API with its arguments (the fuel of
`mtQueue_startBatch` is that of the mask loop). -/
inductive Call where
  | subscribe
  | startBatch (fuel : Nat)
  | submitBatch
  | waitForBatch (sub_id : Nat)

/-- The queue after the call `c` on `q` has returned; `none` when the call has
no defined result or does not return. -/
def callStep (q : MtQueue) : Call → Option MtQueue
  | .subscribe => (mtQueue_subscribe q).map fun r => r.1
  | .startBatch fuel => (mtQueue_startBatch fuel q).map fun r => r.1
  | .submitBatch => (mtQueue_submitBatch q).map fun r => r.1
  | .waitForBatch sub_id => (mtQueue_waitForBatch q sub_id).toOption.map fun r => r.1

/-- The queue after the calls of the list, made one after the other. -/
def runCalls : List Call → MtQueue → Option MtQueue
  | [], q => some q
  | c :: cs, q => (callStep q c).bind (runCalls cs)

/-- Some prior content of the queue memory, as `mtQueue_init` may find it. -/
def staleQueue : MtQueue :=
  { emptyQueue with
    head := 5, tail := 3, num_subs := 7, is_paused := true, refmask := fun _ => 9 }

/-- A ring of two subscribers with one outstanding batch in slot 0, of which S0
has cleared its bit and S1 has not. -/
def oneBatchQueue : MtQueue :=
  { emptyQueue with num_subs := 2, tail := 1, refmask := fun i => if i.val = 0 then 6 else 0 }

/-- The calls on the queue's mutex and condition variable, and the stores that
advance a cursor, in the order in which one thread makes them. -/
inductive SyncEvent where
  /-- The call `pthread_mutex_init(&q->mtx, NULL)`. -/
  | mutexInit
  /-- The call `pthread_cond_init(&q->have_data_cond, NULL)`. -/
  | condInit
  /-- A call `pthread_mutex_lock(&q->mtx)`. -/
  | mutexLock
  /-- A call `pthread_mutex_unlock(&q->mtx)`. -/
  | mutexUnlock
  /-- The call `pthread_cond_broadcast(&q->have_data_cond)`. -/
  | condBroadcast
  /-- The call `pthread_cond_wait(&q->have_data_cond, &q->mtx)`. -/
  | condWait
  /-- The store `atomic_store(&q->tail, (q->tail + 1) % LENGTH(q->batches))`. -/
  | tailAdvance
  /-- The store `atomic_store(&q->head, (q->head + 1) % LENGTH(q->batches))`. -/
  | headAdvance
  deriving DecidableEq

/-- Whether the thread holds `q->mtx` after the event, given whether it held it
before.  A mutex is unlocked after `pthread_mutex_init`; `pthread_cond_wait`
gives the mutex back to its caller before it returns. -/
def heldAfter (held : Bool) : SyncEvent → Bool
  | .mutexInit => false
  | .mutexLock => true
  | .mutexUnlock => false
  | _ => held

/-- The lock discipline on the events of one thread that starts with the mutex
held or not (`held`): every `pthread_cond_wait` and every advance of `tail`
happens while the thread holds `q->mtx`. -/
def lockDiscipline : Bool → List SyncEvent → Bool
  | _, [] => true
  | held, e :: es =>
    (match e with
      | .condWait => held
      | .tailAdvance => held
      | _ => true) && lockDiscipline (heldAfter held e) es

/-- The events of `mtQueue_init`. -/
def mtQueue_init_events : List SyncEvent :=
  [.mutexInit, .condInit]

/-- The events of `mtQueue_startBatch`: it makes no call on the mutex or the
condition variable and advances no cursor. -/
def mtQueue_startBatch_events : List SyncEvent :=
  []

/-- The events of `mtQueue_submitBatch`: the broadcast, then the store to
`tail` (when `tail` is a valid index for the `printf` in between). -/
def mtQueue_submitBatch_events (q : MtQueue) : List SyncEvent :=
  if q.tail < k_mtqueue_max_batches_ then [.condBroadcast, .tailAdvance] else [.condBroadcast]

/-- The events of `mtQueue_subscribe`: none. -/
def mtQueue_subscribe_events : List SyncEvent :=
  []

/-- The events of `mtQueue_waitForBatch`, up to its return or up to its first
`pthread_cond_wait`: nothing on a paused queue, the wait when `head == tail`,
and otherwise the store to `head` when the prior pending set is `sub_id`. -/
def mtQueue_waitForBatch_events (q : MtQueue) (sub_id : Nat) : List SyncEvent :=
  if q.is_paused then
    []
  else if q.head = q.tail then
    [.condWait]
  else if h : q.head < k_mtqueue_max_batches_ then
    if q.refmask ⟨q.head, h⟩ = sub_id then [.headAdvance] else []
  else
    []

/-- The events of `thread_func` on the queue `q`, up to the end of its first
call of `mtQueue_waitForBatch`: it subscribes and then waits, with the identity
it was given. -/
def thread_func_events (q : MtQueue) : List SyncEvent :=
  match mtQueue_subscribe q with
  | some (q1, _, sub_id) => mtQueue_subscribe_events ++ mtQueue_waitForBatch_events q1 sub_id
  | none => mtQueue_subscribe_events

/-- The events of `main` on the queue memory `q0`, up to the end of the first
round of its producer loop: `mtQueue_init`, `mtQueue_startBatch`,
`mtQueue_submitBatch`. -/
def main_events (fuel : Nat) (q0 : MtQueue) : List SyncEvent :=
  mtQueue_init_events ++
    match mtQueue_startBatch fuel (mtQueue_init q0) with
    | some (q1, _, _) => mtQueue_startBatch_events ++ mtQueue_submitBatch_events q1
    | none => mtQueue_startBatch_events

/-! ## Auxiliary lemmas -/

theorem or_two_pow (k : Nat) : (2 ^ k - 1) ||| 2 ^ k = 2 ^ (k + 1) - 1 := by
  apply Nat.eq_of_testBit_eq
  intro i
  simp only [Nat.testBit_or, Nat.testBit_two_pow_sub_one, Nat.testBit_two_pow]
  by_cases h : i < k
  · have : i < k + 1 := by omega
    simp [h, this]
  · by_cases h2 : k = i
    · subst h2; simp
    · have : ¬ i < k + 1 := by omega
      simp [h, h2, this]

/-- Loop invariant of `build_ref_mask`: when the loop variable is `2 ^ k`, the
mask holds the bits below `k`; `d` counts the iterations still to run. -/
theorem build_ref_mask_loop_spec (n : Nat) (hn : n ≤ 30) :
    ∀ (d k fuel : Nat), k + d = n + 1 → d + 1 ≤ fuel →
      build_ref_mask_loop (2 ^ n) fuel (2 ^ k) (2 ^ k - 1) = some (2 ^ (n + 1) - 1) := by
  intro d
  induction d with
  | zero =>
    intro k fuel hk hf
    obtain ⟨f, rfl⟩ : ∃ f, fuel = f + 1 := ⟨fuel - 1, by omega⟩
    have hk' : k = n + 1 := by omega
    subst hk'
    have : ¬ 2 ^ (n + 1) ≤ 2 ^ n := by
      rw [Nat.pow_succ]; have := Nat.two_pow_pos n; omega
    simp [build_ref_mask_loop, this]
  | succ d ih =>
    intro k fuel hk hf
    obtain ⟨f, rfl⟩ : ∃ f, fuel = f + 1 := ⟨fuel - 1, by omega⟩
    have hle : 2 ^ k ≤ 2 ^ n := Nat.pow_le_pow_right (by decide) (by omega)
    have h1 : (2 ^ k <<< 1) % 2 ^ 32 = 2 ^ (k + 1) := by
      rw [Nat.shiftLeft_eq, ← Nat.pow_succ]
      exact Nat.mod_eq_of_lt (Nat.pow_lt_pow_right (by decide) (by omega))
    have h2 : ((2 ^ k - 1) ||| 2 ^ k) % 2 ^ 32 = 2 ^ (k + 1) - 1 := by
      rw [or_two_pow]
      apply Nat.mod_eq_of_lt
      have : 2 ^ (k + 1) ≤ 2 ^ 32 := Nat.pow_le_pow_right (by decide) (by omega)
      have := Nat.two_pow_pos (k + 1)
      omega
    rw [build_ref_mask_loop, if_pos hle, h1, h2]
    exact ih (k + 1) f (by omega) (by omega)

/-- With enough fuel `build_ref_mask` returns, and its result has the bits
`0 .. n` set, the bit `n` included. -/
theorem build_ref_mask_eq (fuel n : Nat) (hn : n ≤ 30) (hf : n + 2 ≤ fuel) :
    build_ref_mask fuel n = some (2 ^ (n + 1) - 1) := by
  have hb : (1 <<< n) % 2 ^ 32 = 2 ^ n := by
    rw [Nat.shiftLeft_eq, Nat.one_mul]
    exact Nat.mod_eq_of_lt (Nat.pow_lt_pow_right (by decide) (by omega))
  have := build_ref_mask_loop_spec n hn (n + 1) 0 fuel (by omega) (by omega)
  simp only [build_ref_mask, if_pos (show n < 32 by omega), hb]
  simpa using this

theorem land_not_sub_id_self (s : Nat) : s &&& not_sub_id s = 0 := by
  apply Nat.eq_of_testBit_eq
  intro i
  have hlt : s % 2 ^ 64 < 2 ^ 64 := Nat.mod_lt _ (Nat.two_pow_pos 64)
  have e : 2 ^ 64 - 1 - s % 2 ^ 64 = 2 ^ 64 - (s % 2 ^ 64 + 1) := by omega
  simp only [not_sub_id, e, Nat.testBit_and, Nat.testBit_mod_two_pow,
    Nat.testBit_two_pow_sub_succ hlt, Nat.zero_testBit]
  by_cases h : i < 32
  · have : i < 64 := by omega
    simp [h, this]
  · simp [h]

theorem land_not_sub_id_land (x s : Nat) : (x &&& not_sub_id s) &&& s = 0 := by
  rw [Nat.land_assoc, Nat.land_comm (not_sub_id s) s, land_not_sub_id_self, Nat.and_zero]

/-- Clearing the bits of a non-zero identity never leaves exactly that identity. -/
theorem land_not_sub_id_ne (x s : Nat) (hs : s ≠ 0) : x &&& not_sub_id s ≠ s := by
  intro h
  have h0 := land_not_sub_id_land x s
  rw [h, Nat.and_self] at h0
  exact hs h0

theorem refmaskAt_of_lt (q : MtQueue) (i : Nat) (h : i < k_mtqueue_max_batches_) :
    q.refmaskAt i = some (q.refmask ⟨i, h⟩) := by
  simp [MtQueue.refmaskAt, h]

/-- The call of `mtQueue_startBatch` on a valid `tail`, in terms of the mask
that `build_ref_mask` returns. -/
theorem mtQueue_startBatch_of_mask (fuel : Nat) (q : MtQueue) (m : Nat)
    (ht : q.tail < k_mtqueue_max_batches_) (hm : build_ref_mask fuel q.num_subs = some m) :
    mtQueue_startBatch fuel q =
      some ({ q with refmask := Function.update q.refmask ⟨q.tail, ht⟩ m }, 0,
        if q.refmask ⟨q.tail, ht⟩ > 0 then some (q.tail, q.refmask ⟨q.tail, ht⟩) else none) := by
  simp [mtQueue_startBatch, ht, hm]

/-- The call of `mtQueue_subscribe` while the shift is defined. -/
theorem mtQueue_subscribe_eq (q : MtQueue) (h : q.num_subs ≤ 30) :
    mtQueue_subscribe q = some ({ q with num_subs := q.num_subs + 1 }, 0, 2 ^ q.num_subs) := by
  have h1 : (q.num_subs + 1) % 2 ^ 32 = q.num_subs + 1 :=
    Nat.mod_eq_of_lt (by norm_num; omega)
  have h2 : (q.num_subs + 1 + (2 ^ 32 - 1)) % 2 ^ 32 = q.num_subs := by
    norm_num; omega
  simp only [mtQueue_subscribe, h1, h2, if_pos (show q.num_subs < 31 by omega),
    Nat.shiftLeft_eq, Nat.one_mul]

/-- A call of `mtQueue_subscribe` that is defined hands out a single bit below
position 31 and returns 0. -/
theorem mtQueue_subscribe_some (q q1 : MtQueue) (rc : Int) (id : Nat)
    (h : mtQueue_subscribe q = some (q1, rc, id)) :
    rc = 0 ∧ ∃ j, j < 31 ∧ id = 2 ^ j := by
  simp only [mtQueue_subscribe] at h
  split at h
  · rename_i hlt
    simp only [Option.some.injEq, Prod.mk.injEq] at h
    refine ⟨h.2.1.symm, _, hlt, ?_⟩
    rw [← h.2.2, Nat.shiftLeft_eq, Nat.one_mul]
  · exact absurd h (by simp)

/-- A call of `mtQueue_waitForBatch` on a running, non-empty queue whose head
slot has a pending set other than the caller's identity. -/
theorem mtQueue_waitForBatch_of_ne (q : MtQueue) (s : Nat) (hp : q.is_paused = false)
    (hne : q.head ≠ q.tail) (hh : q.head < k_mtqueue_max_batches_)
    (hs : q.refmask ⟨q.head, hh⟩ ≠ s) :
    mtQueue_waitForBatch q s =
      .returned
        { q with
          refmask :=
            Function.update q.refmask ⟨q.head, hh⟩ (q.refmask ⟨q.head, hh⟩ &&& not_sub_id s) }
        0 (some q.head) := by
  simp [mtQueue_waitForBatch, hp, hne, hh, hs]

/-- A call of `mtQueue_waitForBatch` on a running, non-empty queue whose head
slot has exactly the caller's identity as its pending set. -/
theorem mtQueue_waitForBatch_of_eq (q : MtQueue) (s : Nat) (hp : q.is_paused = false)
    (hne : q.head ≠ q.tail) (hh : q.head < k_mtqueue_max_batches_)
    (hs : q.refmask ⟨q.head, hh⟩ = s) :
    mtQueue_waitForBatch q s =
      .returned
        { q with
          refmask :=
            Function.update q.refmask ⟨q.head, hh⟩ (q.refmask ⟨q.head, hh⟩ &&& not_sub_id s)
          head := (q.head + 1) % k_mtqueue_max_batches_ }
        0 (some q.head) := by
  simp [mtQueue_waitForBatch, hp, hne, hh, hs]

/-- The identities handed out by `m` calls of `mtQueue_subscribe` in a row,
while the shifts are defined. -/
theorem subscribeMany_eq (m : Nat) :
    ∀ (q : MtQueue) (a : Nat), q.num_subs = a → a + m ≤ 31 →
      subscribeMany m q =
        some ({ q with num_subs := a + m }, (List.range' a m).map fun j => 2 ^ j) := by
  induction m with
  | zero =>
    intro q a ha _
    subst ha
    rfl
  | succ m ih =>
    intro q a ha h
    subst ha
    have h1 := mtQueue_subscribe_eq q (by omega)
    have h2 := ih { q with num_subs := q.num_subs + 1 } (q.num_subs + 1) rfl (by omega)
    have e : q.num_subs + 1 + m = q.num_subs + (m + 1) := by omega
    simp only [subscribeMany, h1, Option.some_bind, h2, e, List.range'_succ, List.map_cons]

/-- The state after a call of `mtQueue_subscribe` that has a defined result. -/
theorem mtQueue_subscribe_state (q q1 : MtQueue) (rc : Int) (id : Nat)
    (h : mtQueue_subscribe q = some (q1, rc, id)) :
    q1 = { q with num_subs := (q.num_subs + 1) % 2 ^ 32 } := by
  simp only [mtQueue_subscribe] at h
  split at h
  · simp only [Option.some.injEq, Prod.mk.injEq] at h
    exact h.1.symm
  · exact absurd h (by simp)

/-- The state after a call of `mtQueue_startBatch` that has a defined result. -/
theorem mtQueue_startBatch_state (fuel : Nat) (q q1 : MtQueue) (rc : Int)
    (d : Option (Nat × Nat)) (h : mtQueue_startBatch fuel q = some (q1, rc, d)) :
    ∃ (ht : q.tail < k_mtqueue_max_batches_) (m : Nat),
      build_ref_mask fuel q.num_subs = some m ∧
        q1 = { q with refmask := Function.update q.refmask ⟨q.tail, ht⟩ m } := by
  by_cases ht : q.tail < k_mtqueue_max_batches_
  · cases hm : build_ref_mask fuel q.num_subs with
    | none => simp [mtQueue_startBatch, ht, hm] at h
    | some m =>
      rw [mtQueue_startBatch_of_mask fuel q m ht hm] at h
      simp only [Option.some.injEq, Prod.mk.injEq] at h
      exact ⟨ht, m, rfl, h.1.symm⟩
  · simp [mtQueue_startBatch, ht] at h

/-- The state after a call of `mtQueue_submitBatch` that has a defined result. -/
theorem mtQueue_submitBatch_state (q q1 : MtQueue) (rc : Int)
    (h : mtQueue_submitBatch q = some (q1, rc)) :
    q.tail < k_mtqueue_max_batches_ ∧
      q1 = { q with tail := (q.tail + 1) % k_mtqueue_max_batches_ } ∧ rc = 0 := by
  by_cases ht : q.tail < k_mtqueue_max_batches_
  · simp only [mtQueue_submitBatch, if_pos ht, Option.some.injEq, Prod.mk.injEq] at h
    exact ⟨ht, h.1.symm, h.2.symm⟩
  · simp [mtQueue_submitBatch, ht] at h

/-- The state after a call of `mtQueue_waitForBatch` that returned: either the
queue is paused and nothing happened, or the head slot lost the bits of the
caller and `head` moved on exactly when the prior pending set was `s`. -/
theorem mtQueue_waitForBatch_state (q q1 : MtQueue) (s : Nat) (rc : Int) (pbatch : Option Nat)
    (h : mtQueue_waitForBatch q s = .returned q1 rc pbatch) :
    (q.is_paused = true ∧ q1 = q ∧ rc = 1 ∧ pbatch = none) ∨
      (q.is_paused = false ∧ q.head ≠ q.tail ∧ rc = 0 ∧ pbatch = some q.head ∧
        ∃ hh : q.head < k_mtqueue_max_batches_,
          (q.refmask ⟨q.head, hh⟩ ≠ s ∧
              q1 = { q with
                refmask :=
                  Function.update q.refmask ⟨q.head, hh⟩
                    (q.refmask ⟨q.head, hh⟩ &&& not_sub_id s) }) ∨
            (q.refmask ⟨q.head, hh⟩ = s ∧
              q1 = { q with
                refmask :=
                  Function.update q.refmask ⟨q.head, hh⟩
                    (q.refmask ⟨q.head, hh⟩ &&& not_sub_id s)
                head := (q.head + 1) % k_mtqueue_max_batches_ })) := by
  by_cases hp : q.is_paused = true
  · simp only [mtQueue_waitForBatch, hp, if_true, WaitResult.returned.injEq] at h
    exact Or.inl ⟨hp, h.1.symm, h.2.1.symm, h.2.2.symm⟩
  · have hp' : q.is_paused = false := by simpa using hp
    by_cases hne : q.head = q.tail
    · simp [mtQueue_waitForBatch, hp', hne] at h
    · by_cases hh : q.head < k_mtqueue_max_batches_
      · by_cases hs : q.refmask ⟨q.head, hh⟩ = s
        · rw [mtQueue_waitForBatch_of_eq q s hp' hne hh hs] at h
          simp only [WaitResult.returned.injEq] at h
          exact Or.inr ⟨hp', hne, h.2.1.symm, h.2.2.symm, hh, Or.inr ⟨hs, h.1.symm⟩⟩
        · rw [mtQueue_waitForBatch_of_ne q s hp' hne hh hs] at h
          simp only [WaitResult.returned.injEq] at h
          exact Or.inr ⟨hp', hne, h.2.1.symm, h.2.2.symm, hh, Or.inl ⟨hs, h.1.symm⟩⟩
      · simp [mtQueue_waitForBatch, hp', hne, hh] at h

/-- On a running, non-empty queue with a valid `head`, `mtQueue_waitForBatch`
returns 0 and hands out the slot at `head`. -/
theorem mtQueue_waitForBatch_returns (q : MtQueue) (s : Nat) (hp : q.is_paused = false)
    (hne : q.head ≠ q.tail) (hh : q.head < k_mtqueue_max_batches_) :
    ∃ q1, mtQueue_waitForBatch q s = .returned q1 0 (some q.head) := by
  by_cases hs : q.refmask ⟨q.head, hh⟩ = s
  · exact ⟨_, mtQueue_waitForBatch_of_eq q s hp hne hh hs⟩
  · exact ⟨_, mtQueue_waitForBatch_of_ne q s hp hne hh hs⟩

/-- The bits of a pending set after the caller's bits were cleared. -/
theorem testBit_land_not_sub_id (x s j : Nat) :
    (x &&& not_sub_id s).testBit j = (x.testBit j && (decide (j < 32) && !s.testBit j)) := by
  have hlt : s % 2 ^ 64 < 2 ^ 64 := Nat.mod_lt _ (Nat.two_pow_pos 64)
  have e : 2 ^ 64 - 1 - s % 2 ^ 64 = 2 ^ 64 - (s % 2 ^ 64 + 1) := by omega
  simp only [not_sub_id, e, Nat.testBit_and, Nat.testBit_mod_two_pow,
    Nat.testBit_two_pow_sub_succ hlt]
  by_cases h : j < 32
  · have : j < 64 := by omega
    simp [h, this]
  · simp [h]

/-- What one call leaves of the cursors and of the pause flag. -/
theorem callStep_fields (q q1 : MtQueue) (c : Call) (h : callStep q c = some q1) :
    q1.is_paused = q.is_paused ∧
      (q1.head = q.head ∨
        (q.head < k_mtqueue_max_batches_ ∧ q1.head = (q.head + 1) % k_mtqueue_max_batches_)) ∧
      (q1.tail = q.tail ∨
        (q.tail < k_mtqueue_max_batches_ ∧ q1.tail = (q.tail + 1) % k_mtqueue_max_batches_)) := by
  cases c with
  | subscribe =>
    simp only [callStep, Option.map_eq_some'] at h
    obtain ⟨⟨q2, rc, id⟩, h2, rfl⟩ := h
    rw [mtQueue_subscribe_state q q2 rc id h2]
    exact ⟨rfl, Or.inl rfl, Or.inl rfl⟩
  | startBatch fuel =>
    simp only [callStep, Option.map_eq_some'] at h
    obtain ⟨⟨q2, rc, d⟩, h2, rfl⟩ := h
    obtain ⟨ht, m, -, e⟩ := mtQueue_startBatch_state fuel q q2 rc d h2
    rw [e]
    exact ⟨rfl, Or.inl rfl, Or.inl rfl⟩
  | submitBatch =>
    simp only [callStep, Option.map_eq_some'] at h
    obtain ⟨⟨q2, rc⟩, h2, rfl⟩ := h
    obtain ⟨ht, e, -⟩ := mtQueue_submitBatch_state q q2 rc h2
    rw [e]
    exact ⟨rfl, Or.inl rfl, Or.inr ⟨ht, rfl⟩⟩
  | waitForBatch s =>
    simp only [callStep, Option.map_eq_some'] at h
    obtain ⟨⟨q2, rc, pb⟩, h2, rfl⟩ := h
    cases hw : mtQueue_waitForBatch q s with
    | blocked => simp [hw, WaitResult.toOption] at h2
    | undefined => simp [hw, WaitResult.toOption] at h2
    | returned q3 rc3 pb3 =>
      simp only [hw, WaitResult.toOption, Option.some.injEq, Prod.mk.injEq] at h2
      obtain ⟨rfl, -, -⟩ := h2
      rcases mtQueue_waitForBatch_state q q3 s rc3 pb3 hw with
        ⟨-, e, -, -⟩ | ⟨-, -, -, -, hh, ⟨-, e⟩ | ⟨-, e⟩⟩
      · rw [e]; exact ⟨rfl, Or.inl rfl, Or.inl rfl⟩
      · rw [e]; exact ⟨rfl, Or.inl rfl, Or.inl rfl⟩
      · rw [e]; exact ⟨rfl, Or.inr ⟨hh, rfl⟩, Or.inl rfl⟩

/-- A property of the queue that every call preserves holds after every
sequence of calls. -/
theorem runCalls_invariant (P : MtQueue → Prop)
    (hstep : ∀ (q q1 : MtQueue) (c : Call), P q → callStep q c = some q1 → P q1) :
    ∀ (cs : List Call) (q q1 : MtQueue), P q → runCalls cs q = some q1 → P q1 := by
  intro cs
  induction cs with
  | nil =>
    intro q q1 hq h
    simp only [runCalls, Option.some.injEq] at h
    exact h ▸ hq
  | cons c cs ih =>
    intro q q1 hq h
    simp only [runCalls, Option.bind_eq_some] at h
    obtain ⟨q2, h2, h3⟩ := h
    exact ih q2 q1 (hstep q q2 c hq h2) h3

/-- The queue after `n` start/submit pairs: only `tail` and pending sets have
changed, and `tail` has advanced `n` slots around the ring. -/
theorem produceMany_spec (fuel n : Nat) :
    ∀ (q : MtQueue), q.tail < k_mtqueue_max_batches_ → q.num_subs ≤ 30 →
      q.num_subs + 2 ≤ fuel →
      ∃ q1, produceMany fuel n q = some q1 ∧ q1.head = q.head ∧
        q1.tail = (q.tail + n) % k_mtqueue_max_batches_ ∧ q1.is_paused = q.is_paused ∧
        q1.num_subs = q.num_subs := by
  induction n with
  | zero =>
    intro q ht _ _
    exact ⟨q, by rw [produceMany], rfl, (Nat.mod_eq_of_lt ht).symm, rfl, rfl⟩
  | succ n ih =>
    intro q ht hn hf
    have hm := build_ref_mask_eq fuel q.num_subs hn hf
    have h1 := mtQueue_startBatch_of_mask fuel q _ ht hm
    obtain ⟨q1, e, hhead, htail, hp, hns⟩ :=
      ih { q with
            refmask := Function.update q.refmask ⟨q.tail, ht⟩ (2 ^ (q.num_subs + 1) - 1)
            tail := (q.tail + 1) % k_mtqueue_max_batches_ }
        (Nat.mod_lt _ (by decide)) hn hf
    refine ⟨q1, ?_, hhead, ?_, hp, hns⟩
    · rw [produceMany, h1]
      simp only [Option.some_bind, mtQueue_submitBatch, if_pos ht]
      exact e
    · rw [htail]
      show ((q.tail + 1) % 8 + n) % 8 = (q.tail + (n + 1)) % 8
      omega

/-- Once the loop variable of `build_ref_mask` is a power of two up to `2 ^ 31`,
or 0, the loop with bound `2 ^ 31` never reaches its exit. -/
theorem build_ref_mask_loop_31 (fuel : Nat) :
    ∀ (i refmask : Nat), (i = 0 ∨ ∃ k, k ≤ 31 ∧ i = 2 ^ k) →
      build_ref_mask_loop (2 ^ 31) fuel i refmask = none := by
  induction fuel with
  | zero => intro i refmask _; rfl
  | succ fuel ih =>
    intro i refmask hi
    have hle : i ≤ 2 ^ 31 := by
      rcases hi with rfl | ⟨k, hk, rfl⟩
      · exact Nat.zero_le _
      · exact Nat.pow_le_pow_right (by decide) hk
    rw [build_ref_mask_loop, if_pos hle]
    apply ih
    rcases hi with rfl | ⟨k, hk, rfl⟩
    · left; rfl
    · by_cases h31 : k = 31
      · left; subst h31; rfl
      · right
        refine ⟨k + 1, by omega, ?_⟩
        rw [Nat.shiftLeft_eq, ← Nat.pow_succ]
        exact Nat.mod_eq_of_lt (Nat.pow_lt_pow_right (by decide) (by omega))

/-! ## Delivery order (C1) -/

/-- C1, counterexample.  In the scenario of two subscribers and two batches the
two successive calls of `mtQueue_waitForBatch` by S0 both return slot 0 (batch
A); the second does not return slot 1 (batch B). -/
theorem scenarioTwoBatches_repeats_slot0 :
    scenarioTwoBatches 8 = some ((0, some 0), (0, some 0)) ∧
      scenarioTwoBatches 8 ≠ some ((0, some 0), (0, some 1)) := by
  decide

/-- C1, as amended.  A successful `mtQueue_waitForBatch` returns the slot at the
shared cursor `head`.  On a running, non-empty queue whose head slot has a
pending set other than exactly the identity `s` of the caller (`s` non-zero),
the call returns slot `head` and leaves `head` where it is, and so does the
next call by the same subscriber: it is handed the same slot again. -/
theorem mtQueue_waitForBatch_twice_same_slot (q : MtQueue) (s : Nat)
    (hp : q.is_paused = false) (hne : q.head ≠ q.tail)
    (hh : q.head < k_mtqueue_max_batches_) (hs0 : s ≠ 0)
    (hs : q.refmaskAt q.head ≠ some s) :
    ∃ q1 q2, mtQueue_waitForBatch q s = .returned q1 0 (some q.head) ∧
      mtQueue_waitForBatch q1 s = .returned q2 0 (some q.head) ∧
      q1.head = q.head ∧ q2.head = q.head ∧ q1.tail = q.tail ∧ q2.tail = q.tail := by
  have hs' : q.refmask ⟨q.head, hh⟩ ≠ s := by
    intro h
    exact hs (by rw [refmaskAt_of_lt q q.head hh, h])
  have e1 := mtQueue_waitForBatch_of_ne q s hp hne hh hs'
  have e2 := mtQueue_waitForBatch_of_ne
    { q with
      refmask :=
        Function.update q.refmask ⟨q.head, hh⟩ (q.refmask ⟨q.head, hh⟩ &&& not_sub_id s) }
    s hp hne hh
    (by
      simp only [Function.update_same]
      exact land_not_sub_id_ne _ s hs0)
  exact ⟨_, _, e1, e2, rfl, rfl, rfl, rfl⟩

/-- C1, witness: slot 0 and slot 1 hold submitted batches with pending set 3,
and S0 (identity 1) waits twice. -/
theorem mtQueue_waitForBatch_twice_same_slot_witness :
    ∃ q1 q2,
      mtQueue_waitForBatch
          { emptyQueue with num_subs := 2, tail := 2, refmask := fun i => if i.val < 2 then 3 else 0 }
          1 = .returned q1 0 (some 0) ∧
        mtQueue_waitForBatch q1 1 = .returned q2 0 (some 0) ∧
        q1.head = 0 ∧ q2.head = 0 ∧ q1.tail = 2 ∧ q2.tail = 2 :=
  mtQueue_waitForBatch_twice_same_slot
    { emptyQueue with num_subs := 2, tail := 2, refmask := fun i => if i.val < 2 then 3 else 0 }
    1 rfl (by decide) (by decide) (by decide) (by decide)

/-! ## Head advancement after one batch (C2) -/

/-- C2, the code at the failing inputs.  For `n = 1, 2, 3, 4` subscribers and one
submitted batch, after every one of the `n` subscribers has called
`mtQueue_waitForBatch` once (in the order of registration, and in other
orders), `head` is still 0 and the pending set of slot 0 is `2 ^ n`, the bit of
no subscriber: `head` has not advanced to 1 and the pending set is not empty. -/
theorem scenarioOneBatch_head_stays :
    scenarioOneBatch 8 1 [0] = some (0, some 2) ∧
      scenarioOneBatch 8 2 [0, 1] = some (0, some 4) ∧
      scenarioOneBatch 8 2 [1, 0] = some (0, some 4) ∧
      scenarioOneBatch 8 3 [0, 1, 2] = some (0, some 8) ∧
      scenarioOneBatch 8 3 [2, 0, 1] = some (0, some 8) ∧
      scenarioOneBatch 8 4 [0, 1, 2, 3] = some (0, some 16) ∧
      scenarioOneBatch 8 4 [3, 1, 0, 2] = some (0, some 16) := by
  decide

/-! ## The initial pending set (C3) -/

/-- C3, the code at the failing inputs.  For `num_subs = 0, 1, 2, 3, 4` the
pending set of the slot at `tail` after `mtQueue_startBatch` is
`1, 3, 7, 15, 31`, that is `2 ^ (n + 1) - 1` and not `2 ^ n - 1`: the bit `n` of
an identity that was never registered is set. -/
theorem mtQueue_startBatch_pending_set_values :
    (List.range 5).map (fun n =>
        (mtQueue_startBatch 8 { emptyQueue with num_subs := n }).bind fun r => r.1.refmaskAt 0) =
      [some 1, some 3, some 7, some 15, some 31] ∧
    (List.range 5).map (fun n => 2 ^ n - 1) = [0, 1, 3, 7, 15] := by
  decide

/-! ## Overrun (C4) -/

/-- C4, counterexample.  On a full ring whose slot at `tail` still has the
pending set 6, `mtQueue_startBatch` returns 0, the value it returns on every
path, prints the diagnostic and replaces the pending set by 7: the state is not
left unchanged. -/
theorem mtQueue_startBatch_overwrites_fullQueue :
    fullQueue.refmaskAt fullQueue.tail = some 6 ∧
      (mtQueue_startBatch 8 fullQueue).map (fun r => (r.2.1, r.2.2, r.1.refmaskAt fullQueue.tail)) =
        some (0, some (0, 6), some 7) ∧
      (mtQueue_startBatch 8 emptyQueue).map (fun r => r.2.1) = some 0 := by
  decide

/-- C4, as amended.  When the slot at `tail` still has a non-empty pending set,
`mtQueue_startBatch` (with at most 30 subscribers, and fuel for the mask loop)
reports the overrun only as a diagnostic naming the slot and its pending set:
it returns 0 and replaces the pending set of that slot by the mask `m` that
`build_ref_mask` returns for the current subscriber count, leaving the rest of
the queue unchanged. -/
theorem mtQueue_startBatch_overrun (fuel : Nat) (q : MtQueue)
    (ht : q.tail < k_mtqueue_max_batches_) (hov : q.refmask ⟨q.tail, ht⟩ ≠ 0)
    (hn : q.num_subs ≤ 30) (hf : q.num_subs + 2 ≤ fuel) :
    ∃ m, build_ref_mask fuel q.num_subs = some m ∧
      mtQueue_startBatch fuel q =
        some ({ q with refmask := Function.update q.refmask ⟨q.tail, ht⟩ m }, 0,
          some (q.tail, q.refmask ⟨q.tail, ht⟩)) := by
  have hm := build_ref_mask_eq fuel q.num_subs hn hf
  refine ⟨_, hm, ?_⟩
  rw [mtQueue_startBatch_of_mask fuel q _ ht hm, if_pos (Nat.pos_of_ne_zero hov)]

/-- C4, witness: the full ring of two subscribers. -/
theorem mtQueue_startBatch_overrun_witness :
    ∃ m, build_ref_mask 8 fullQueue.num_subs = some m ∧
      mtQueue_startBatch 8 fullQueue =
        some ({ fullQueue with
                refmask := Function.update fullQueue.refmask ⟨fullQueue.tail, by decide⟩ m },
          0, some (fullQueue.tail, fullQueue.refmask ⟨fullQueue.tail, by decide⟩)) :=
  mtQueue_startBatch_overrun 8 fullQueue (by decide) (by decide) (by decide) (by decide)

/-! ## The consumer step (C5, C6, C7) -/

/-- C5.  On a queue that is not paused, with `head != tail` and `head` a valid
slot index, `mtQueue_waitForBatch` returns 0 with the batch view at the slot
whose index is the old `head`; the new `head` is `(head + 1) % 8` if and only if
the pending set of that slot before the call was exactly `s`, and otherwise
`head` is unchanged.  (No bound on `tail` or on `s` is needed.) -/
theorem mtQueue_waitForBatch_head_rule (q : MtQueue) (s : Nat)
    (hp : q.is_paused = false) (hne : q.head ≠ q.tail)
    (hh : q.head < k_mtqueue_max_batches_) :
    ∃ q1, mtQueue_waitForBatch q s = .returned q1 0 (some q.head) ∧
      (q1.head = (q.head + 1) % 8 ↔ q.refmaskAt q.head = some s) ∧
      (q.refmaskAt q.head ≠ some s → q1.head = q.head) := by
  rw [refmaskAt_of_lt q q.head hh]
  by_cases hs : q.refmask ⟨q.head, hh⟩ = s
  · refine ⟨_, mtQueue_waitForBatch_of_eq q s hp hne hh hs, ?_, ?_⟩
    · simp [hs]
    · intro h
      exact absurd (by rw [hs]) h
  · refine ⟨_, mtQueue_waitForBatch_of_ne q s hp hne hh hs, ?_, ?_⟩
    · have h8 : q.head < 8 := hh
      constructor
      · intro h
        simp only at h
        omega
      · intro h
        exact absurd (Option.some.inj h) hs
    · intro _
      rfl

/-- C5, witness: one outstanding batch in slot 0 whose pending set is exactly
the identity 2 of the caller. -/
theorem mtQueue_waitForBatch_head_rule_witness :
    ∃ q1,
      mtQueue_waitForBatch { emptyQueue with num_subs := 2, tail := 1, refmask := fun _ => 2 } 2 =
          .returned q1 0 (some 0) ∧
        (q1.head = (0 + 1) % 8 ↔
          MtQueue.refmaskAt { emptyQueue with num_subs := 2, tail := 1, refmask := fun _ => 2 } 0 =
            some 2) ∧
        (MtQueue.refmaskAt { emptyQueue with num_subs := 2, tail := 1, refmask := fun _ => 2 } 0 ≠
            some 2 → q1.head = 0) :=
  mtQueue_waitForBatch_head_rule
    { emptyQueue with num_subs := 2, tail := 1, refmask := fun _ => 2 } 2 rfl (by decide)
    (by decide)

/-- C6.  If a call of `mtQueue_waitForBatch` returns with `head` changed, then
after the call the pending set of the slot at the old `head` is empty. -/
theorem mtQueue_waitForBatch_head_change_drained (q q1 : MtQueue) (s : Nat) (rc : Int)
    (pbatch : Option Nat) (h : mtQueue_waitForBatch q s = .returned q1 rc pbatch)
    (hch : q1.head ≠ q.head) :
    q1.refmaskAt q.head = some 0 := by
  by_cases hp : q.is_paused = true
  · simp only [mtQueue_waitForBatch, hp, if_true, WaitResult.returned.injEq] at h
    exact absurd (by rw [← h.1]) hch
  · have hp' : q.is_paused = false := by simpa using hp
    by_cases hne : q.head = q.tail
    · simp [mtQueue_waitForBatch, hp', hne] at h
    · by_cases hh : q.head < k_mtqueue_max_batches_
      · by_cases hs : q.refmask ⟨q.head, hh⟩ = s
        · rw [mtQueue_waitForBatch_of_eq q s hp' hne hh hs] at h
          simp only [WaitResult.returned.injEq] at h
          rw [← h.1, refmaskAt_of_lt _ q.head hh]
          simp only [Function.update_same]
          rw [hs, land_not_sub_id_self]
        · rw [mtQueue_waitForBatch_of_ne q s hp' hne hh hs] at h
          simp only [WaitResult.returned.injEq] at h
          exact absurd (by rw [← h.1]) hch
      · simp [mtQueue_waitForBatch, hp', hne, hh] at h

/-- C6, witness: the last outstanding consumer (identity 2) of slot 0 drains it,
`head` moves from 0 to 1 and slot 0 is left with an empty pending set. -/
theorem mtQueue_waitForBatch_head_change_drained_witness :
    MtQueue.refmaskAt
        { emptyQueue with
          num_subs := 2
          tail := 1
          refmask := Function.update (fun _ => 2) ⟨0, by decide⟩ (2 &&& not_sub_id 2)
          head := 1 }
        0 = some 0 :=
  mtQueue_waitForBatch_head_change_drained
    { emptyQueue with num_subs := 2, tail := 1, refmask := fun _ => 2 }
    { emptyQueue with
      num_subs := 2
      tail := 1
      refmask := Function.update (fun _ => 2) ⟨0, by decide⟩ (2 &&& not_sub_id 2)
      head := 1 }
    2 0 (some 0) rfl (by decide)

/-- C7.  On a paused queue `mtQueue_waitForBatch` returns 1, which is not the
success value 0, leaves the whole queue as it was and writes no batch view. -/
theorem mtQueue_waitForBatch_paused (q : MtQueue) (s : Nat) (hp : q.is_paused = true) :
    mtQueue_waitForBatch q s = .returned q 1 none ∧ (1 : Int) ≠ 0 := by
  constructor
  · simp [mtQueue_waitForBatch, hp]
  · decide

/-- C7, witness: a paused queue with one outstanding batch. -/
theorem mtQueue_waitForBatch_paused_witness :
    mtQueue_waitForBatch
        { emptyQueue with num_subs := 1, tail := 1, refmask := fun _ => 1, is_paused := true } 1 =
        .returned
          { emptyQueue with num_subs := 1, tail := 1, refmask := fun _ => 1, is_paused := true }
          1 none ∧
      (1 : Int) ≠ 0 :=
  mtQueue_waitForBatch_paused
    { emptyQueue with num_subs := 1, tail := 1, refmask := fun _ => 1, is_paused := true } 1 rfl

/-! ## Publication (C8) -/

/-- C8.  With `tail` a valid slot index, `mtQueue_submitBatch` returns 0 and
sets `tail` to `(tail + 1) % 8`; `head`, every pending set and payload, the
subscriber count, the `subs` array and the pause flag are unchanged. -/
theorem mtQueue_submitBatch_advances_tail (q : MtQueue) (ht : q.tail < 8) :
    mtQueue_submitBatch q = some ({ q with tail := (q.tail + 1) % 8 }, 0) := by
  simp [mtQueue_submitBatch, ht]

/-- C8, witness: `tail` wraps from slot 7 to slot 0. -/
theorem mtQueue_submitBatch_advances_tail_witness :
    mtQueue_submitBatch { emptyQueue with tail := 7 } =
      some ({ emptyQueue with tail := (7 + 1) % 8 }, 0) :=
  mtQueue_submitBatch_advances_tail { emptyQueue with tail := 7 } (by decide)

/-! ## Registration (C9, C10) -/

/-- C9, counterexample.  With four subscribers registered, the fifth call of
`mtQueue_subscribe` returns 0, raises the subscriber count to 5 and hands out
the identity 16, bit position 4, which is not in `[0, 4)`. -/
theorem mtQueue_subscribe_fifth :
    fourSubsQueue.num_subs = k_mtqueue_max_subscribers_ ∧
      (mtQueue_subscribe fourSubsQueue).map (fun r => (r.1.num_subs, r.2.1, r.2.2)) =
        some (5, 0, 2 ^ 4) := by
  decide

/-- C9, as amended.  Registration is not bounded by
`k_mtqueue_max_subscribers_`: with four subscribers registered,
`mtQueue_subscribe` returns 0 like every registration, hands out the identity
`2 ^ 4` and raises the subscriber count to 5.  Every call of `mtQueue_subscribe`
with a defined result returns 0 and hands out a single bit at a position in
`[0, 31)`. -/
theorem mtQueue_subscribe_unbounded (q : MtQueue) (h : q.num_subs = k_mtqueue_max_subscribers_) :
    mtQueue_subscribe q = some ({ q with num_subs := 5 }, 0, 2 ^ 4) ∧
      ∀ (q0 q1 : MtQueue) (rc : Int) (id : Nat), mtQueue_subscribe q0 = some (q1, rc, id) →
        rc = 0 ∧ ∃ j, j < 31 ∧ id = 2 ^ j := by
  refine ⟨?_, mtQueue_subscribe_some⟩
  rw [mtQueue_subscribe_eq q (by rw [h]; decide), h]

/-- C9, witness: the queue with four registered subscribers. -/
theorem mtQueue_subscribe_unbounded_witness :
    mtQueue_subscribe fourSubsQueue = some ({ fourSubsQueue with num_subs := 5 }, 0, 2 ^ 4) ∧
      ∀ (q0 q1 : MtQueue) (rc : Int) (id : Nat), mtQueue_subscribe q0 = some (q1, rc, id) →
        rc = 0 ∧ ∃ j, j < 31 ∧ id = 2 ^ j :=
  mtQueue_subscribe_unbounded fourSubsQueue rfl

/-- C10.  With `num_subs = k - 1` and `1 <= k <= 31`, `mtQueue_subscribe` returns
0, sets `num_subs` to `k` and writes the identity `2 ^ (k - 1)`.  Hence `m <= 31`
registrations in a row on a queue with `num_subs = 0` all succeed and hand out
`2 ^ 0, 2 ^ 1, ..., 2 ^ (m - 1)` in this order: single bits, strictly
increasing, no two of them equal. -/
theorem mtQueue_subscribe_identity (q : MtQueue) (k : Nat) (hk1 : 1 ≤ k) (hk : k ≤ 31)
    (hq : q.num_subs = k - 1) (q0 : MtQueue) (m : Nat) (h0 : q0.num_subs = 0) (hm : m ≤ 31) :
    mtQueue_subscribe q = some ({ q with num_subs := k }, 0, 2 ^ (k - 1)) ∧
      ∃ ids, subscribeMany m q0 = some ({ q0 with num_subs := m }, ids) ∧
        ids = (List.range m).map (fun j => 2 ^ j) ∧
        ids.length = m ∧
        (∀ id ∈ ids, ∃ j, j < m ∧ id = 2 ^ j) ∧
        ids.Pairwise (fun a b => a < b) ∧
        ids.Nodup := by
  constructor
  · have e : q.num_subs + 1 = k := by omega
    rw [mtQueue_subscribe_eq q (by omega), e, hq]
  · have hs := subscribeMany_eq m q0 0 h0 (by omega)
    rw [Nat.zero_add, ← List.range_eq_range'] at hs
    have hpw : ((List.range m).map (fun j => 2 ^ j)).Pairwise (fun a b => a < b) := by
      rw [List.pairwise_map]
      exact (List.pairwise_lt_range m).imp (fun hab => Nat.pow_lt_pow_right (by decide) hab)
    refine ⟨_, hs, rfl, by simp, ?_, hpw, hpw.imp (fun hab => Nat.ne_of_lt hab)⟩
    intro id hid
    rw [List.mem_map] at hid
    obtain ⟨j, hj, rfl⟩ := hid
    exact ⟨j, List.mem_range.1 hj, rfl⟩

/-- C10, witness: the third registration on a queue with two subscribers, and
three registrations in a row on the empty queue. -/
theorem mtQueue_subscribe_identity_witness :
    mtQueue_subscribe { emptyQueue with num_subs := 2 } =
        some ({ emptyQueue with num_subs := 3 }, 0, 2 ^ (3 - 1)) ∧
      ∃ ids, subscribeMany 3 emptyQueue = some ({ emptyQueue with num_subs := 3 }, ids) ∧
        ids = (List.range 3).map (fun j => 2 ^ j) ∧
        ids.length = 3 ∧
        (∀ id ∈ ids, ∃ j, j < 3 ∧ id = 2 ^ j) ∧
        ids.Pairwise (fun a b => a < b) ∧
        ids.Nodup :=
  mtQueue_subscribe_identity { emptyQueue with num_subs := 2 } 3 (by decide) (by decide) rfl
    emptyQueue 3 rfl (by decide)

/-! ## Full ring and empty ring (C11) -/

/-- C11, counterexample.  On the empty queue with one subscriber, after 8
start/submit pairs and no consumption, `head` and `tail` are both 0 again, so
`head == tail` holds, and `mtQueue_waitForBatch` by that subscriber blocks in
`pthread_cond_wait` and hands out no slot. -/
theorem scenarioFilledRing_full_blocks :
    scenarioFilledRing 8 1 8 1 = some (0, 0, true, none) := by
  decide

/-- C11, as amended.  On a running queue with `head = tail = 0` and at most 30
subscribers (and fuel for the mask loop): after 8 start/submit pairs and no
consumption `tail` has wrapped around to `head`, the state satisfies
`head == tail` and `mtQueue_waitForBatch` takes the blocking path; after `k`
pairs with `1 <= k <= 7` the state has `head != tail` and `mtQueue_waitForBatch`
returns 0 with the oldest batch, slot 0. -/
theorem full_ring_looks_empty (fuel : Nat) (q : MtQueue) (s : Nat) (hh : q.head = 0)
    (ht : q.tail = 0) (hp : q.is_paused = false) (hn : q.num_subs ≤ 30)
    (hf : q.num_subs + 2 ≤ fuel) :
    (∃ q8, produceMany fuel 8 q = some q8 ∧ q8.head = q8.tail ∧
        mtQueue_waitForBatch q8 s = .blocked) ∧
      ∀ k, 1 ≤ k → k ≤ 7 →
        ∃ qk q1, produceMany fuel k q = some qk ∧ qk.head ≠ qk.tail ∧
          mtQueue_waitForBatch qk s = .returned q1 0 (some 0) := by
  have ht8 : q.tail < k_mtqueue_max_batches_ := by rw [ht]; decide
  constructor
  · obtain ⟨q8, e, h1, h2, h3, -⟩ := produceMany_spec fuel 8 q ht8 hn hf
    have heq : q8.head = q8.tail := by
      rw [h1, h2, hh, ht]
      decide
    refine ⟨q8, e, heq, ?_⟩
    simp [mtQueue_waitForBatch, h3, hp, heq]
  · intro k hk1 hk7
    obtain ⟨qk, e, h1, h2, h3, -⟩ := produceMany_spec fuel k q ht8 hn hf
    have hhk : qk.head = 0 := by rw [h1, hh]
    have htk : qk.tail = k := by
      rw [h2, ht]
      show (0 + k) % 8 = k
      omega
    have hne : qk.head ≠ qk.tail := by rw [hhk, htk]; omega
    obtain ⟨q1, hw⟩ := mtQueue_waitForBatch_returns qk s (by rw [h3, hp]) hne
      (by rw [hhk]; decide)
    rw [hhk] at hw
    exact ⟨qk, q1, e, hne, hw⟩

/-- C11, witness: the empty queue with one subscriber, whose identity is 1. -/
theorem full_ring_looks_empty_witness :
    (∃ q8, produceMany 8 8 { emptyQueue with num_subs := 1 } = some q8 ∧ q8.head = q8.tail ∧
        mtQueue_waitForBatch q8 1 = .blocked) ∧
      ∀ k, 1 ≤ k → k ≤ 7 →
        ∃ qk q1, produceMany 8 k { emptyQueue with num_subs := 1 } = some qk ∧
          qk.head ≠ qk.tail ∧ mtQueue_waitForBatch qk 1 = .returned q1 0 (some 0) :=
  full_ring_looks_empty 8 { emptyQueue with num_subs := 1 } 1 rfl rfl rfl (by decide) (by decide)

/-! ## Frame properties (C12, C13) -/

/-- C12.  `mtQueue_startBatch` replaces the pending set of the slot at `tail` by
the mask of `build_ref_mask` and changes no other pending set.
`mtQueue_waitForBatch` with identity `s`, on a queue that is not paused, sets
the pending set of the slot at the old `head` to the old value AND NOT `s`
(taken in 32 bits): every bit set afterwards was set before and is not a bit of
`s`, and no other pending set changes.  `mtQueue_subscribe` and
`mtQueue_submitBatch` change no pending set. -/
theorem pending_set_mutations (fuel : Nat) (q : MtQueue) (s : Nat) :
    (∀ q1 rc d, mtQueue_startBatch fuel q = some (q1, rc, d) →
        ∃ (ht : q.tail < k_mtqueue_max_batches_) (m : Nat),
          build_ref_mask fuel q.num_subs = some m ∧ q1.refmask ⟨q.tail, ht⟩ = m ∧
            ∀ i : Fin k_mtqueue_max_batches_, i.val ≠ q.tail → q1.refmask i = q.refmask i) ∧
      (∀ q1 rc pbatch, mtQueue_waitForBatch q s = .returned q1 rc pbatch →
        q.is_paused = false →
        ∃ hh : q.head < k_mtqueue_max_batches_,
          q1.refmask ⟨q.head, hh⟩ = q.refmask ⟨q.head, hh⟩ &&& not_sub_id s ∧
            (∀ j, (q1.refmask ⟨q.head, hh⟩).testBit j = true →
              (q.refmask ⟨q.head, hh⟩).testBit j = true ∧ s.testBit j = false) ∧
            (q.refmask ⟨q.head, hh⟩ < 2 ^ 32 →
              ∀ j, (q1.refmask ⟨q.head, hh⟩).testBit j =
                ((q.refmask ⟨q.head, hh⟩).testBit j && !s.testBit j)) ∧
            ∀ i : Fin k_mtqueue_max_batches_, i.val ≠ q.head → q1.refmask i = q.refmask i) ∧
      (∀ q1 rc id, mtQueue_subscribe q = some (q1, rc, id) → q1.refmask = q.refmask) ∧
      (∀ q1 rc, mtQueue_submitBatch q = some (q1, rc) → q1.refmask = q.refmask) := by
  refine ⟨?_, ?_, ?_, ?_⟩
  · intro q1 rc d h
    obtain ⟨ht, m, hm, e⟩ := mtQueue_startBatch_state fuel q q1 rc d h
    refine ⟨ht, m, hm, ?_, ?_⟩
    · rw [e]
      simp only [Function.update_same]
    · intro i hi
      rw [e]
      exact Function.update_noteq (fun hc => hi (by rw [hc])) _ _
  · intro q1 rc pbatch h hp
    rcases mtQueue_waitForBatch_state q q1 s rc pbatch h with
      ⟨hp1, -⟩ | ⟨-, -, -, -, hh, hcase⟩
    · rw [hp] at hp1
      exact absurd hp1 (by decide)
    · have hval : q1.refmask ⟨q.head, hh⟩ = q.refmask ⟨q.head, hh⟩ &&& not_sub_id s := by
        rcases hcase with ⟨-, e⟩ | ⟨-, e⟩ <;> rw [e] <;> simp only [Function.update_same]
      have hframe : ∀ i : Fin k_mtqueue_max_batches_, i.val ≠ q.head →
          q1.refmask i = q.refmask i := by
        intro i hi
        rcases hcase with ⟨-, e⟩ | ⟨-, e⟩ <;> rw [e] <;>
          exact Function.update_noteq (fun hc => hi (by rw [hc])) _ _
      refine ⟨hh, hval, ?_, ?_, hframe⟩
      · intro j hj
        rw [hval, testBit_land_not_sub_id] at hj
        simp only [Bool.and_eq_true, Bool.not_eq_true', decide_eq_true_eq] at hj
        exact ⟨hj.1, hj.2.2⟩
      · intro hlt j
        rw [hval, testBit_land_not_sub_id]
        by_cases hj : j < 32
        · simp [hj]
        · have h0 : (q.refmask ⟨q.head, hh⟩).testBit j = false :=
            Nat.testBit_lt_two_pow
              (Nat.lt_of_lt_of_le hlt (Nat.pow_le_pow_right (by decide) (by omega)))
          simp [h0]
  · intro q1 rc id h
    rw [mtQueue_subscribe_state q q1 rc id h]
  · intro q1 rc h
    rw [(mtQueue_submitBatch_state q q1 rc h).2.1]

/-- C12, witness: on a ring of two subscribers with one outstanding batch, each
of the four operations returns and treats the pending sets as stated. -/
theorem pending_set_mutations_witness :
    (∃ q1 rc d, mtQueue_startBatch 8 oneBatchQueue = some (q1, rc, d) ∧
        q1.refmask 1 = 7 ∧ q1.refmask 0 = 6) ∧
      (∃ q1 rc pbatch,
        mtQueue_waitForBatch oneBatchQueue 2 = .returned q1 rc pbatch ∧
          q1.refmask 0 = 6 &&& not_sub_id 2 ∧ q1.refmask 1 = 0) ∧
      (∃ q1 rc id, mtQueue_subscribe oneBatchQueue = some (q1, rc, id) ∧
        q1.refmask = oneBatchQueue.refmask) ∧
      (∃ q1 rc, mtQueue_submitBatch oneBatchQueue = some (q1, rc) ∧
        q1.refmask = oneBatchQueue.refmask) := by
  have hthm := pending_set_mutations 8 oneBatchQueue 2
  refine ⟨?_, ?_, ?_, ?_⟩
  · have hs : (mtQueue_startBatch 8 oneBatchQueue).isSome = true := by decide
    obtain ⟨⟨q1, rc, d⟩, e⟩ := Option.isSome_iff_exists.1 hs
    obtain ⟨ht, m, hm, hv, hf⟩ := hthm.1 q1 rc d e
    have h7 : m = 7 := by
      have h2 : build_ref_mask 8 2 = some 7 := by decide
      exact Option.some.inj (hm.symm.trans h2)
    exact ⟨q1, rc, d, e, hv.trans h7, hf 0 (by decide)⟩
  · obtain ⟨q1, e⟩ := mtQueue_waitForBatch_returns oneBatchQueue 2 rfl
      (by decide) (by decide)
    obtain ⟨hh, hv, -, -, hf⟩ := hthm.2.1 q1 0 _ e rfl
    exact ⟨q1, 0, _, e, hv, hf 1 (by decide)⟩
  · have hs : (mtQueue_subscribe oneBatchQueue).isSome = true := by decide
    obtain ⟨⟨q1, rc, id⟩, e⟩ := Option.isSome_iff_exists.1 hs
    exact ⟨q1, rc, id, e, hthm.2.2.1 q1 rc id e⟩
  · have hs : (mtQueue_submitBatch oneBatchQueue).isSome = true := by decide
    obtain ⟨⟨q1, rc⟩, e⟩ := Option.isSome_iff_exists.1 hs
    exact ⟨q1, rc, e, hthm.2.2.2 q1 rc e⟩

/-- C13.  `tail` is left unchanged by `mtQueue_startBatch`, `mtQueue_subscribe`
and `mtQueue_waitForBatch`, for every state and argument; `mtQueue_submitBatch`
is the operation that moves it, to `(tail + 1) % 8`.  `head` is left unchanged
by `mtQueue_startBatch`, `mtQueue_submitBatch` and `mtQueue_subscribe`. -/
theorem cursor_single_writer (fuel : Nat) (q : MtQueue) (s : Nat) :
    (∀ q1 rc d, mtQueue_startBatch fuel q = some (q1, rc, d) →
        q1.tail = q.tail ∧ q1.head = q.head) ∧
      (∀ q1 rc id, mtQueue_subscribe q = some (q1, rc, id) →
        q1.tail = q.tail ∧ q1.head = q.head) ∧
      (∀ q1 rc pbatch, mtQueue_waitForBatch q s = .returned q1 rc pbatch →
        q1.tail = q.tail) ∧
      (∀ q1 rc, mtQueue_submitBatch q = some (q1, rc) →
        q1.head = q.head ∧ q1.tail = (q.tail + 1) % 8) := by
  refine ⟨?_, ?_, ?_, ?_⟩
  · intro q1 rc d h
    obtain ⟨ht, m, -, e⟩ := mtQueue_startBatch_state fuel q q1 rc d h
    rw [e]
    exact ⟨rfl, rfl⟩
  · intro q1 rc id h
    rw [mtQueue_subscribe_state q q1 rc id h]
    exact ⟨rfl, rfl⟩
  · intro q1 rc pbatch h
    rcases mtQueue_waitForBatch_state q q1 s rc pbatch h with
      ⟨-, e, -⟩ | ⟨-, -, -, -, hh, ⟨-, e⟩ | ⟨-, e⟩⟩ <;> rw [e]
  · intro q1 rc h
    rw [(mtQueue_submitBatch_state q q1 rc h).2.1]
    exact ⟨rfl, rfl⟩

/-- C13, witness: on a ring of two subscribers with one outstanding batch, each
of the four operations returns and treats the cursors as stated. -/
theorem cursor_single_writer_witness :
    (∃ q1 rc d, mtQueue_startBatch 8 oneBatchQueue = some (q1, rc, d) ∧
        q1.tail = 1 ∧ q1.head = 0) ∧
      (∃ q1 rc id, mtQueue_subscribe oneBatchQueue = some (q1, rc, id) ∧
        q1.tail = 1 ∧ q1.head = 0) ∧
      (∃ q1 rc pbatch,
        mtQueue_waitForBatch oneBatchQueue 2 = .returned q1 rc pbatch ∧
          q1.tail = 1) ∧
      (∃ q1 rc, mtQueue_submitBatch oneBatchQueue = some (q1, rc) ∧
        q1.head = 0 ∧ q1.tail = (1 + 1) % 8) := by
  have hthm := cursor_single_writer 8 oneBatchQueue 2
  refine ⟨?_, ?_, ?_, ?_⟩
  · have hs : (mtQueue_startBatch 8 oneBatchQueue).isSome = true := by decide
    obtain ⟨⟨q1, rc, d⟩, e⟩ := Option.isSome_iff_exists.1 hs
    exact ⟨q1, rc, d, e, hthm.1 q1 rc d e⟩
  · have hs : (mtQueue_subscribe oneBatchQueue).isSome = true := by decide
    obtain ⟨⟨q1, rc, id⟩, e⟩ := Option.isSome_iff_exists.1 hs
    exact ⟨q1, rc, id, e, hthm.2.1 q1 rc id e⟩
  · obtain ⟨q1, e⟩ := mtQueue_waitForBatch_returns oneBatchQueue 2 rfl
      (by decide) (by decide)
    exact ⟨q1, 0, _, e, hthm.2.2.1 q1 0 _ e⟩
  · have hs : (mtQueue_submitBatch oneBatchQueue).isSome = true := by decide
    obtain ⟨⟨q1, rc⟩, e⟩ := Option.isSome_iff_exists.1 hs
    exact ⟨q1, rc, e, hthm.2.2.2 q1 rc e⟩

/-! ## Cursor bound (C14) -/

/-- C14.  In every state reached from a state with `head < 8` and `tail < 8` by a
sequence of `mtQueue_subscribe`, `mtQueue_startBatch`, `mtQueue_submitBatch` and
`mtQueue_waitForBatch` calls, `head` and `tail` are below 8, the ring distance
`(tail - head) mod 8` lies between 0 and 8, and the slot accesses of the next
call are in bounds: `mtQueue_submitBatch` has a result and `mtQueue_waitForBatch`
is never out of bounds. -/
theorem cursors_stay_in_bounds (q0 q : MtQueue) (cs : List Call)
    (hh : q0.head < k_mtqueue_max_batches_) (ht : q0.tail < k_mtqueue_max_batches_)
    (hrun : runCalls cs q0 = some q) :
    q.head < 8 ∧ q.tail < 8 ∧
      0 ≤ ((q.tail : Int) - (q.head : Int)) % 8 ∧ ((q.tail : Int) - (q.head : Int)) % 8 ≤ 8 ∧
      (mtQueue_submitBatch q).isSome = true ∧
      ∀ s, (mtQueue_waitForBatch q s).isUndefined = false := by
  have hinv : q.head < k_mtqueue_max_batches_ ∧ q.tail < k_mtqueue_max_batches_ := by
    refine runCalls_invariant
      (fun q => q.head < k_mtqueue_max_batches_ ∧ q.tail < k_mtqueue_max_batches_)
      ?_ cs q0 q ⟨hh, ht⟩ hrun
    intro qa qb c hP hc
    obtain ⟨-, hhead, htail⟩ := callStep_fields qa qb c hc
    constructor
    · rcases hhead with e | ⟨-, e⟩
      · rw [e]; exact hP.1
      · rw [e]; exact Nat.mod_lt _ (by decide)
    · rcases htail with e | ⟨-, e⟩
      · rw [e]; exact hP.2
      · rw [e]; exact Nat.mod_lt _ (by decide)
  obtain ⟨h1, h2⟩ := hinv
  have h1' : q.head < 8 := h1
  have h2' : q.tail < 8 := h2
  refine ⟨h1, h2, by omega, by omega, ?_, ?_⟩
  · simp [mtQueue_submitBatch, h2]
  · intro s
    by_cases hp : q.is_paused = true
    · simp [mtQueue_waitForBatch, hp, WaitResult.isUndefined]
    · have hp' : q.is_paused = false := by simpa using hp
      by_cases hne : q.head = q.tail
      · simp [mtQueue_waitForBatch, hp', hne, WaitResult.isUndefined]
      · obtain ⟨q1, e⟩ := mtQueue_waitForBatch_returns q s hp' hne h1
        rw [e]
        rfl

/-- C14, witness: from the empty queue, a subscriber registers, one batch is
started and submitted, and the subscriber waits for it. -/
theorem cursors_stay_in_bounds_witness :
    ∃ q, runCalls [.subscribe, .startBatch 8, .submitBatch, .waitForBatch 1] emptyQueue = some q ∧
      q.head < 8 ∧ q.tail < 8 ∧
      0 ≤ ((q.tail : Int) - (q.head : Int)) % 8 ∧ ((q.tail : Int) - (q.head : Int)) % 8 ≤ 8 ∧
      (mtQueue_submitBatch q).isSome = true ∧
      ∀ s, (mtQueue_waitForBatch q s).isUndefined = false := by
  have hs : (runCalls [.subscribe, .startBatch 8, .submitBatch, .waitForBatch 1]
      emptyQueue).isSome = true := by decide
  obtain ⟨q, e⟩ := Option.isSome_iff_exists.1 hs
  exact ⟨q, e, cursors_stay_in_bounds emptyQueue q _ (by decide) (by decide) e⟩

/-! ## Lock discipline (C15) -/

/-- The call of `mtQueue_waitForBatch` is inside `pthread_cond_wait` exactly when
its events have the wait. -/
theorem condWait_mem_events_iff (q : MtQueue) (s : Nat) :
    SyncEvent.condWait ∈ mtQueue_waitForBatch_events q s ↔
      (mtQueue_waitForBatch q s).isBlocked = true := by
  by_cases hp : q.is_paused = true
  · simp [mtQueue_waitForBatch_events, mtQueue_waitForBatch, hp, WaitResult.isBlocked]
  · have hp' : q.is_paused = false := by simpa using hp
    by_cases hne : q.head = q.tail
    · simp [mtQueue_waitForBatch_events, mtQueue_waitForBatch, hp', hne, WaitResult.isBlocked]
    · by_cases hh : q.head < k_mtqueue_max_batches_
      · by_cases hs : q.refmask ⟨q.head, hh⟩ = s
        · simp [mtQueue_waitForBatch_events, mtQueue_waitForBatch, hp', hne, hh, hs,
            WaitResult.isBlocked]
        · simp [mtQueue_waitForBatch_events, mtQueue_waitForBatch, hp', hne, hh, hs,
            WaitResult.isBlocked]
      · simp [mtQueue_waitForBatch_events, mtQueue_waitForBatch, hp', hne, hh,
          WaitResult.isBlocked]

/-- The events of a call of `mtQueue_waitForBatch` that is inside
`pthread_cond_wait` are that wait alone. -/
theorem mtQueue_waitForBatch_events_blocked (q : MtQueue) (s : Nat)
    (h : (mtQueue_waitForBatch q s).isBlocked = true) :
    mtQueue_waitForBatch_events q s = [.condWait] := by
  by_cases hp : q.is_paused = true
  · simp [mtQueue_waitForBatch, hp, WaitResult.isBlocked] at h
  · have hp' : q.is_paused = false := by simpa using hp
    by_cases hne : q.head = q.tail
    · simp [mtQueue_waitForBatch_events, hp', hne]
    · by_cases hh : q.head < k_mtqueue_max_batches_
      · by_cases hs : q.refmask ⟨q.head, hh⟩ = s
        · simp [mtQueue_waitForBatch, hp', hne, hh, hs, WaitResult.isBlocked] at h
        · simp [mtQueue_waitForBatch, hp', hne, hh, hs, WaitResult.isBlocked] at h
      · simp [mtQueue_waitForBatch, hp', hne, hh, WaitResult.isBlocked] at h

/-- C15, the code at the failing input.  Neither `mtQueue_waitForBatch` nor
`mtQueue_submitBatch` locks the mutex: a call of `mtQueue_waitForBatch` that
waits, and a call of `mtQueue_submitBatch` that advances `tail`, keep the lock
discipline only if their caller already holds the mutex.  The callers do not:
on the queue that `mtQueue_init` leaves, `thread_func` reaches
`pthread_cond_wait`, and `main` advances `tail`, without holding the mutex. -/
theorem lock_discipline_broken :
    (∀ (q : MtQueue) (s : Nat),
        SyncEvent.mutexLock ∉ mtQueue_waitForBatch_events q s ∧
          SyncEvent.mutexLock ∉ mtQueue_submitBatch_events q) ∧
      (∀ (q : MtQueue) (s : Nat) (held : Bool), (mtQueue_waitForBatch q s).isBlocked = true →
        lockDiscipline held (mtQueue_waitForBatch_events q s) = held) ∧
      (∀ (q : MtQueue) (held : Bool), (mtQueue_submitBatch q).isSome = true →
        lockDiscipline held (mtQueue_submitBatch_events q) = held) ∧
      thread_func_events (mtQueue_init emptyQueue) = [.condWait] ∧
      lockDiscipline false (thread_func_events (mtQueue_init emptyQueue)) = false ∧
      main_events 8 emptyQueue = [.mutexInit, .condInit, .condBroadcast, .tailAdvance] ∧
      lockDiscipline false (main_events 8 emptyQueue) = false := by
  refine ⟨?_, ?_, ?_, by decide, by decide, by decide, by decide⟩
  · intro q s
    constructor
    · unfold mtQueue_waitForBatch_events
      split_ifs <;> simp
    · unfold mtQueue_submitBatch_events
      split_ifs <;> simp
  · intro q s held h
    rw [mtQueue_waitForBatch_events_blocked q s h]
    simp [lockDiscipline]
  · intro q held h
    have ht : q.tail < k_mtqueue_max_batches_ := by
      by_cases ht : q.tail < k_mtqueue_max_batches_
      · exact ht
      · simp [mtQueue_submitBatch, ht] at h
    simp [mtQueue_submitBatch_events, ht, lockDiscipline, heldAfter]

/-! ## The mask loop (C16, C19) -/

/-- C16.  For `0 <= n <= 30`, `build_ref_mask n` returns (with fuel for `n + 2`
evaluations of the loop condition) the 32-bit value `2 ^ (n + 1) - 1`: exactly the
bits `0 .. n` are set, so bit `n`, which no registered subscriber owns, is set. -/
theorem build_ref_mask_extra_bit (fuel n : Nat) (hn : n ≤ 30) (hf : n + 2 ≤ fuel) :
    build_ref_mask fuel n = some (2 ^ (n + 1) - 1) ∧ 2 ^ (n + 1) - 1 < 2 ^ 32 ∧
      (∀ j, (2 ^ (n + 1) - 1).testBit j = decide (j ≤ n)) ∧
      (2 ^ (n + 1) - 1).testBit n = true := by
  refine ⟨build_ref_mask_eq fuel n hn hf, ?_, ?_, ?_⟩
  · have h1 : 2 ^ (n + 1) ≤ 2 ^ 32 := Nat.pow_le_pow_right (by decide) (by omega)
    have h2 := Nat.two_pow_pos (n + 1)
    omega
  · intro j
    rw [Nat.testBit_two_pow_sub_one]
    by_cases h : j ≤ n
    · simp [h, Nat.lt_succ_of_le h]
    · simp [h]
      omega
  · rw [Nat.testBit_two_pow_sub_one]
    simp

/-- C16, witness: four subscribers give the mask 31, with bit 4 set. -/
theorem build_ref_mask_extra_bit_witness :
    build_ref_mask 6 4 = some (2 ^ (4 + 1) - 1) ∧ 2 ^ (4 + 1) - 1 < 2 ^ 32 ∧
      (∀ j, (2 ^ (4 + 1) - 1).testBit j = decide (j ≤ 4)) ∧
      (2 ^ (4 + 1) - 1).testBit 4 = true :=
  build_ref_mask_extra_bit 6 4 (by decide) (by decide)

/-- C19, the code at the failing input.  For `num_subs = 31` the shift
`1u << 31` is defined, but the loop of `build_ref_mask` reaches its exit with no
amount of fuel: after `i = 2 ^ 31` the shift wraps `i` to 0, and 0 stays below
the bound for ever.  31 subscribers can be registered. -/
theorem build_ref_mask_31_never_exits :
    (¬ ∃ fuel, (build_ref_mask fuel 31).isSome = true) ∧
      (subscribeMany 31 emptyQueue).map (fun r => r.1.num_subs) = some 31 := by
  constructor
  · rintro ⟨fuel, h⟩
    have h0 : build_ref_mask fuel 31 = none := by
      have hb : (1 <<< 31) % 2 ^ 32 = 2 ^ 31 := by decide
      simp only [build_ref_mask, if_pos (show 31 < 32 by decide), hb]
      exact build_ref_mask_loop_31 fuel 1 0 (Or.inr ⟨0, by decide, rfl⟩)
    rw [h0] at h
    exact absurd h (by decide)
  · rw [subscribeMany_eq 31 emptyQueue 0 rfl (by decide)]
    rfl

/-! ## Initialisation and the pause flag (C17, C18) -/

/-- C17, the code at the failing input.  `mtQueue_init` keeps the `head` and the
`num_subs` that it finds in the queue memory, for every prior content: on a
memory with `head = 5`, `tail = 3` and `num_subs = 7` it leaves `head = 5` and
`num_subs = 7` while it sets `tail = 0`, clears the pause flag and empties every
pending set, so the result does not have `head == tail`. -/
theorem mtQueue_init_keeps_head_and_count :
    (∀ q : MtQueue, (mtQueue_init q).head = q.head ∧ (mtQueue_init q).num_subs = q.num_subs ∧
        (mtQueue_init q).tail = 0 ∧ (mtQueue_init q).is_paused = false ∧
        ∀ i, (mtQueue_init q).refmask i = 0) ∧
      (mtQueue_init staleQueue).head = 5 ∧ (mtQueue_init staleQueue).tail = 0 ∧
      (mtQueue_init staleQueue).num_subs = 7 := by
  refine ⟨fun q => ⟨rfl, rfl, rfl, rfl, fun _ => rfl⟩, rfl, rfl, rfl⟩

/-- C18.  In every state reached from the result of `mtQueue_init` by a sequence
of `mtQueue_subscribe`, `mtQueue_startBatch`, `mtQueue_submitBatch` and
`mtQueue_waitForBatch` calls, `is_paused` is false, and a call of
`mtQueue_waitForBatch` that returns there returns 0, never the paused status 1. -/
theorem pause_flag_never_raised (q0 q : MtQueue) (cs : List Call)
    (hrun : runCalls cs (mtQueue_init q0) = some q) :
    q.is_paused = false ∧
      ∀ s q1 rc pbatch, mtQueue_waitForBatch q s = .returned q1 rc pbatch → rc = 0 ∧ rc ≠ 1 := by
  have hp : q.is_paused = false := by
    refine runCalls_invariant (fun q => q.is_paused = false) ?_ cs (mtQueue_init q0) q rfl hrun
    intro qa qb c hP hc
    rw [(callStep_fields qa qb c hc).1]
    exact hP
  refine ⟨hp, ?_⟩
  intro s q1 rc pbatch h
  rcases mtQueue_waitForBatch_state q q1 s rc pbatch h with ⟨hp1, -⟩ | ⟨-, -, hrc, -⟩
  · rw [hp] at hp1
    exact absurd hp1 (by decide)
  · rw [hrc]
    exact ⟨rfl, by decide⟩

/-- C18, witness: after `mtQueue_init` on stale memory, a subscriber registers,
one batch is started and submitted, and the subscriber waits. -/
theorem pause_flag_never_raised_witness :
    ∃ q, runCalls [.subscribe, .startBatch 16, .submitBatch, .waitForBatch 128]
        (mtQueue_init staleQueue) = some q ∧
      q.is_paused = false ∧
      ∀ s q1 rc pbatch, mtQueue_waitForBatch q s = .returned q1 rc pbatch → rc = 0 ∧ rc ≠ 1 := by
  have hs : (runCalls [.subscribe, .startBatch 16, .submitBatch, .waitForBatch 128]
      (mtQueue_init staleQueue)).isSome = true := by decide
  obtain ⟨q, e⟩ := Option.isSome_iff_exists.1 hs
  exact ⟨q, e, pause_flag_never_raised staleQueue q _ e⟩

end Mtq
